import Mathlib

/-!
Verification of the Road-Safety-Intervention-Chatbot backend search pipeline.

Shallow embedding of the Python sources:
  * `backend/app/core/ranker.py`                      (ResultRanker)
  * `backend/app/core/strategies/hybrid_fusion.py`    (HybridFusionStrategy)
  * `backend/app/core/strategies/structured_query.py` (StructuredQueryStrategy)
  * `backend/app/services/database.py`                (DatabaseService)
  * `backend/app/core/orchestrator.py`                (QueryOrchestrator)

Modelling conventions:
  * Python `str` is modelled as `List Char`; `s.lower()` is `lower`,
    `a in b` (substring) is `pyIn a b`.
  * Python `float` scores are modelled as `ℚ` (the spec speaks in exact
    real arithmetic: 0.5, 1/61, ...).
  * Python dicts (the `filters` argument, the RRF score dict) are modelled
    as insertion-ordered association lists, which is exactly the observable
    behaviour of CPython dicts (first-position kept on update, append on
    new key, `values()` in insertion order).
  * Pydantic models become structures.  Purely descriptive fields that no
    modelled operation reads (`match_reason`, `dimensions`, `colors`,
    `placement_distances`, `keywords`, `s_no`, `clause`) are omitted.
-/

/-- Python strings. -/
abbrev Str := List Char

/-- Python `str.lower()`. -/
def lower (s : Str) : Str := s.map Char.toLower

/-- Does `needle` start `hay`?  (helper for the substring test). -/
def leadMatch : Str → Str → Bool
  | [], _ => true
  | _ :: _, [] => false
  | a :: as, b :: bs => if a = b then leadMatch as bs else false

/-- Does `hay` contain `needle` as a contiguous substring?  (Python `needle in hay`). -/
def containsStr : Str → Str → Bool
  | [], needle => needle.isEmpty
  | c :: t, needle => leadMatch needle (c :: t) || containsStr t needle

/-- Python `needle in hay` for strings. -/
def pyIn (needle hay : Str) : Bool := containsStr hay needle

/-- `backend/app/models/intervention.py`: class `Intervention`
(descriptive list fields not read by any modelled operation are omitted). -/
structure Intervention where
  id : Str
  problem : Str
  category : Str
  type : Str
  data : Str
  code : Str
  speed_min : Option Int
  speed_max : Option Int
  priority : Option Str
  search_text : Option Str
deriving DecidableEq

/-- `backend/app/models/intervention.py`: class `InterventionResult`
(the descriptive `match_reason` string is omitted). -/
structure InterventionResult where
  intervention : Intervention
  confidence : ℚ
  relevance_score : ℚ
deriving DecidableEq

def criticalStr : Str := "Critical".toList

def highStr : Str := "High".toList

/-- One step of `ResultRanker.deduplicate`: the body of the `for` loop,
acting on the insertion-ordered dict `seen_ids`. -/
def dedupInsert (s : List (Str × InterventionResult)) (r : InterventionResult) :
    List (Str × InterventionResult) :=
  match s.find? (fun p => p.1 = r.intervention.id) with
  | none => s ++ [(r.intervention.id, r)]
  | some p =>
    if r.confidence > p.2.confidence then
      s.map (fun q => if q.1 = r.intervention.id then (q.1, r) else q)
    else s

/-- `ResultRanker.deduplicate` (ranker.py lines 13-27): fold the results into
the `seen_ids` dict, then return `list(seen_ids.values())`. -/
def deduplicate (results : List InterventionResult) : List InterventionResult :=
  (results.foldl dedupInsert []).map (fun p => p.2)

/-- The per-result body of `ResultRanker.apply_boost` (ranker.py lines 35-64);
`query_lower` is the precomputed `query.lower()`. -/
def boostOne (query_lower : Str) (r : InterventionResult) : InterventionResult :=
  let boost : ℚ := 0
  let boost := if pyIn (lower r.intervention.problem) query_lower then boost + 1/10 else boost
  let boost := if pyIn (lower r.intervention.category) query_lower then boost + 1/20 else boost
  let boost := if pyIn (lower r.intervention.type) query_lower then boost + 1/20 else boost
  let boost :=
    if r.intervention.priority = some criticalStr then boost + 1/20
    else if r.intervention.priority = some highStr then boost + 3/100
    else boost
  let conf := min (r.confidence + boost) 1
  { r with confidence := conf, relevance_score := conf }

/-- `ResultRanker.apply_boost`. -/
def apply_boost (results : List InterventionResult) (query : Str) : List InterventionResult :=
  results.map (boostOne (lower query))

/-- `ResultRanker.rank_by_confidence` uses Python `sorted(..., reverse=True)`:
stable descending insertion, placing `x` before the first element whose key is
strictly smaller (ties keep first-seen order).  Also used by the RRF sort. -/
def insertDesc {α : Type} (key : α → ℚ) (x : α) : List α → List α
  | [] => [x]
  | y :: ys => if key x > key y then x :: y :: ys else y :: insertDesc key x ys

/-- Python `sorted(l, key=key, reverse=True)` (a stable descending sort). -/
def sortDesc {α : Type} (key : α → ℚ) (l : List α) : List α :=
  l.foldl (fun acc x => insertDesc key x acc) []

/-- A value stored in the Python `filters` dict (`SearchFilters.dict()` holds
string lists, ints, strings, and `None`). -/
inductive FVal
  | vNone
  | vStrs (l : List Str)
  | vInt (n : Int)
  | vStr (s : Str)
deriving DecidableEq

/-- The `filters` dict: an insertion-ordered association list. -/
abbrev FDict := List (Str × FVal)

/-- Python `d.get(k)` (also `d[k]` where the source guards existence). -/
def fget (d : FDict) (k : Str) : Option FVal :=
  (d.find? (fun p => p.1 = k)).map (fun p => p.2)

/-- Python `d[k] = v`: update in place when the key exists, else append. -/
def dictSet (d : FDict) (k : Str) (v : FVal) : FDict :=
  if (d.find? (fun p => p.1 = k)).isSome then
    d.map (fun p => if p.1 = k then (p.1, v) else p)
  else d ++ [(k, v)]

/-- Python truthiness of a retrieved dict value (`if filters.get("x"):`). -/
def truthy : Option FVal → Bool
  | none => false
  | some .vNone => false
  | some (.vStrs l) => !l.isEmpty
  | some (.vInt n) => !(n = 0 : Bool)
  | some (.vStr s) => !s.isEmpty

/-- Python membership `x in v` for a dict value (list membership; for a plain
string, substring).  Ill-typed values never occur in the modelled callers. -/
def memFVal (x : Str) : Option FVal → Bool
  | some (.vStrs l) => decide (x ∈ l)
  | some (.vStr s) => pyIn x s
  | _ => false

/-- Truthiness of `if filters:` on the `Optional[Dict]` argument. -/
def pyTruthyDict : Option FDict → Bool
  | none => false
  | some d => !d.isEmpty

def catKey : Str := "category".toList

def probKey : Str := "problem".toList

def sminKey : Str := "speed_min".toList

def smaxKey : Str := "speed_max".toList

def ircKey : Str := "irc_code".toList

/-- Coerce a dict value to the `Optional[List[str]]` parameter type. -/
def asStrList : Option FVal → Option (List Str)
  | some (.vStrs l) => some l
  | _ => none

/-- Coerce a dict value to the `Optional[int]` parameter type. -/
def asInt : Option FVal → Option Int
  | some (.vInt n) => some n
  | _ => none

/-- Coerce a dict value to the `Optional[str]` parameter type. -/
def asStr : Option FVal → Option Str
  | some (.vStr s) => some s
  | _ => none

/-- Python truthiness of an `Optional[List[str]]` (`if category:`). -/
def truthyStrList : Option (List Str) → Bool
  | none => false
  | some l => !l.isEmpty

/-- Python truthiness of an `Optional[str]` (`if irc_code:`). -/
def truthyOptStr : Option Str → Bool
  | none => false
  | some s => !s.isEmpty

/-- The speed-range mask of `DatabaseService.search_by_filters`
(database.py lines 70-80): `(notna(speed_min) & notna(speed_max) &
speed_min <= qmax & speed_max >= qmin) | isna(speed_min)`. -/
def speedMatch (qmin qmax : Int) (x : Intervention) : Bool :=
  (x.speed_min.isSome && x.speed_max.isSome
    && (x.speed_min.getD 0 ≤ qmax : Bool) && (x.speed_max.getD 0 ≥ qmin : Bool))
  || x.speed_min.isNone

/-- `DatabaseService.search_by_filters` (database.py lines 43-86); the store
`db` is the row list of the loaded DataFrame. -/
def search_by_filters (db : List Intervention)
    (category problem : Option (List Str)) (speed_min speed_max : Option Int)
    (irc_code : Option Str) (limit : Nat) : List Intervention :=
  let r := db
  let r := if truthyStrList category then
      r.filter (fun x => decide (x.category ∈ category.getD [])) else r
  let r := if truthyStrList problem then
      r.filter (fun x => decide (x.problem ∈ problem.getD [])) else r
  let r := if truthyOptStr irc_code then
      r.filter (fun x => decide (x.code = irc_code.getD [])) else r
  let r := if speed_min.isSome && speed_max.isSome then
      r.filter (speedMatch (speed_min.getD 0) (speed_max.getD 0)) else r
  r.take limit

/-- `DatabaseService.text_search` (database.py lines 130-152).  pandas
`str.contains(query_lower, na=False)` defaults to `regex=True`: it applies
`re.search` of the lowered query, as a regex pattern, to each lowered value,
and raises `re.error` on an invalid pattern (the caller's `except` then yields
`[]`).  The regex engine is a parameter of the embedding: `reCompile pat` is
`none` when `pat` is not a valid regex (raising, modelled as the `none`
result), else the compiled search predicate on values.  `hasCol` is whether
the DataFrame has a `search_text` column; within such a column a missing
value is excluded (`na=False`). -/
def text_search (reCompile : Str → Option (Str → Bool)) (db : List Intervention)
    (hasCol : Bool) (query : Str) (limit : Nat) : Option (List Intervention) :=
  let ql := lower query
  match reCompile ql with
  | none => none
  | some m =>
    let mask := fun (x : Intervention) =>
      if hasCol then
        match x.search_text with
        | some st => m (lower st)
        | none => false
      else
        m (lower x.problem) || m (lower x.category)
          || m (lower x.type) || m (lower x.data)
    some ((db.filter mask).take limit)

/-- Python `re.search` for a LITERAL pattern — one without regex
metacharacters — is plain substring containment.  This instantiates the
abstract regex primitive at such patterns (it is not faithful for patterns
containing metacharacters and is applied only to concrete literal queries). -/
def reCompileLit (pat : Str) : Option (Str → Bool) :=
  some (fun hay => containsStr hay pat)

/-- `StructuredQueryStrategy._calculate_confidence`
(structured_query.py lines 66-93). -/
def calculate_confidence (query : Str) (x : Intervention) (filters : Option FDict) : ℚ :=
  let ql := lower query
  let score : ℚ := 1/2
  let score := if pyIn (lower x.problem) ql then score + 1/5 else score
  let score := if pyIn (lower x.category) ql then score + 3/20 else score
  let score := if pyIn (lower x.type) ql then score + 3/20 else score
  let score :=
    if pyTruthyDict filters then
      let d := filters.getD []
      let score := if truthy (fget d catKey) && memFVal x.category (fget d catKey) then
          score + 1/10 else score
      let score := if truthy (fget d probKey) && memFVal x.problem (fget d probKey) then
          score + 1/10 else score
      score
    else score
  min score 1

/-- `StructuredQueryStrategy.search` (structured_query.py lines 22-64):
branch on `if filters:`, then wrap each record in an `InterventionResult`.
The whole body runs inside `try/except`, so a `re.error` raised by the text
search makes the strategy return `[]`. -/
def structured_search (reCompile : Str → Option (Str → Bool)) (db : List Intervention)
    (hasCol : Bool) (query : Str) (filters : Option FDict) (max_results : Nat) :
    List InterventionResult :=
  let results :=
    if pyTruthyDict filters then
      let d := filters.getD []
      search_by_filters db (asStrList (fget d catKey)) (asStrList (fget d probKey))
        (asInt (fget d sminKey)) (asInt (fget d smaxKey)) (asStr (fget d ircKey)) max_results
    else
      match text_search reCompile db hasCol query max_results with
      | none => []
      | some r => r
  results.map (fun x =>
    { intervention := x
      confidence := calculate_confidence query x filters
      relevance_score := calculate_confidence query x filters })

/-- `backend/app/models/schemas.py`: class `ExtractedEntities`. -/
structure ExtractedEntities where
  problems : List Str
  category : Option Str
  type : Option Str
  speed : Option Int
  road_type : Option Str
  environment : Option (List Str)
  urgency : Option Str
deriving DecidableEq

/-- `QueryOrchestrator._merge_filters` (orchestrator.py lines 113-130). -/
def merge_filters (filters : FDict) (entities : ExtractedEntities) : FDict :=
  let filters :=
    match entities.category with
    | some c => if !c.isEmpty && !truthy (fget filters catKey) then
        dictSet filters catKey (.vStrs [c]) else filters
    | none => filters
  let filters :=
    if !entities.problems.isEmpty && !truthy (fget filters probKey) then
      dictSet filters probKey (.vStrs entities.problems) else filters
  let filters :=
    match entities.speed with
    | some v =>
      if !(v = 0 : Bool) then
        if !truthy (fget filters sminKey) && !truthy (fget filters smaxKey) then
          dictSet (dictSet filters sminKey (.vInt (max 0 (v - 20)))) smaxKey (.vInt (v + 20))
        else filters
      else filters
    | none => filters
  filters

/-- Outcome of `QueryOrchestrator._generate_synthesis`: either the fixed
fallback text, or a call of the LLM synthesis capability on the top-3
interventions. -/
inductive SynthesisResult
  | fallbackText (msg : Str)
  | llmSynthesis (interventions : List Intervention)
deriving DecidableEq

/-- The fixed no-results message of `_generate_synthesis`. -/
def noResultsMsg : Str :=
  "No interventions found matching your query. Please try rephrasing or broadening your search.".toList

/-- `QueryOrchestrator._generate_synthesis` (orchestrator.py lines 172-185). -/
def generate_synthesis (results : List InterventionResult) : SynthesisResult :=
  if results.isEmpty then .fallbackText noResultsMsg
  else .llmSynthesis ((results.take 3).map (fun r => r.intervention))

/-- The RRF constant `self.k = 60` of `HybridFusionStrategy`. -/
def rrfK : ℚ := 60

/-- The paired `scores` / `interventions` dicts of `_reciprocal_rank_fusion`
(they always hold the same keys in the same insertion order, so they are
modelled as one insertion-ordered association list). -/
abbrev RRFState := List (Str × ℚ × InterventionResult)

/-- One loop iteration of `_reciprocal_rank_fusion`: accumulate `sc` onto an
existing identifier, or record a new identifier with its first-seen result. -/
def rrfInsert (s : RRFState) (id : Str) (sc : ℚ) (r : InterventionResult) : RRFState :=
  if (s.find? (fun p => p.1 = id)).isSome then
    s.map (fun p => if p.1 = id then (p.1, p.2.1 + sc, p.2.2) else p)
  else s ++ [(id, sc, r)]

/-- One `for rank, result in enumerate(results, 1)` loop of
`_reciprocal_rank_fusion`, starting at rank `rank`. -/
def rrfAddList : Nat → List InterventionResult → RRFState → RRFState
  | _, [], s => s
  | rank, r :: rs, s =>
    rrfAddList (rank + 1) rs (rrfInsert s r.intervention.id (1 / (rrfK + (rank : ℚ))) r)

/-- `HybridFusionStrategy._reciprocal_rank_fusion`
(hybrid_fusion.py lines 47-97). -/
def reciprocal_rank_fusion (rag_results structured_results : List InterventionResult) :
    List InterventionResult :=
  let s := rrfAddList 1 structured_results (rrfAddList 1 rag_results [])
  let sorted := sortDesc (fun p => p.2.1) s
  sorted.map (fun p =>
    let max_possible_score : ℚ := (1 / (rrfK + 1)) * 2
    let normalized_score := min (p.2.1 / max_possible_score) 1
    { p.2.2 with confidence := normalized_score, relevance_score := normalized_score })

/-! Spec-side reference definitions, phrased from the specification text, to be
compared with the definitions above that embed the source. -/

/-- The identifiers of a result list. -/
def idsOf (l : List InterventionResult) : List Str := l.map (fun r => r.intervention.id)

/-- Spec: the total additive boost of `apply_boost`, as a sum of independent
indicator increments. -/
def boostSpec (query : Str) (i : Intervention) : ℚ :=
  (if pyIn (lower i.problem) (lower query) then 1/10 else 0)
  + (if pyIn (lower i.category) (lower query) then 1/20 else 0)
  + (if pyIn (lower i.type) (lower query) then 1/20 else 0)
  + (if i.priority = some criticalStr then 1/20
     else if i.priority = some highStr then 3/100 else 0)

/-- Keep the better of two results: the later one only on strictly greater
confidence. -/
def betterOf (b x : InterventionResult) : InterventionResult :=
  if x.confidence > b.confidence then x else b

/-- Spec: the result `deduplicate` retains among the occurrences of one
identifier — the first-seen one, replaced only by strictly greater confidence. -/
def bestFirstSpec : List InterventionResult → Option InterventionResult
  | [] => none
  | r :: rs => some (rs.foldl betterOf r)

/-- Dict lookup in the `seen_ids` state of `deduplicate`. -/
def findVal (s : List (Str × InterventionResult)) (id : Str) : Option InterventionResult :=
  (s.find? (fun p => p.1 = id)).map (fun p => p.2)

/-- Spec: the sum of `1/(k + rank)` over the occurrences of identifier `id` in
one ranked list, 1-based ranks starting at `rank`. -/
def rankSum : Nat → Str → List InterventionResult → ℚ
  | _, _, [] => 0
  | rank, id, r :: rs =>
    (if r.intervention.id = id then 1 / (rrfK + (rank : ℚ)) else 0) + rankSum (rank + 1) id rs

/-- Spec: the accumulated RRF score of an identifier over both input lists. -/
def specScore (rag_results structured_results : List InterventionResult) (id : Str) : ℚ :=
  rankSum 1 id rag_results + rankSum 1 id structured_results

/-- Lookup in the RRF accumulation state. -/
def rrfLookup (s : RRFState) (id : Str) : Option (ℚ × InterventionResult) :=
  (s.find? (fun p => p.1 = id)).map (fun p => p.2)

/-- The confidence a fused output list assigns to an identifier (the output
holds at most one result per identifier). -/
def emittedConf (l : List InterventionResult) (id : Str) : Option ℚ :=
  (l.find? (fun r => r.intervention.id = id)).map (fun r => r.confidence)

/-- Spec (claim wording): a record passes the speed filter iff its own range
overlaps the query range or it has no speed information at all. -/
def speedOverlapClaim (qmin qmax : Int) (x : Intervention) : Bool :=
  (x.speed_min.isSome && x.speed_max.isSome
    && (x.speed_min.getD 0 ≤ qmax : Bool) && (x.speed_max.getD 0 ≥ qmin : Bool))
  || (x.speed_min.isNone && x.speed_max.isNone)

/-- The filter value at key `k` read as a string list (absent, `None`, or
non-list values give the empty list). -/
def fvalList : Option FVal → List Str
  | some (.vStrs l) => l
  | _ => []

/-- The category / problem list of the filters argument at key `k`. -/
def filterFieldList (filters : Option FDict) (k : Str) : List Str :=
  match filters with
  | some d => fvalList (fget d k)
  | none => []

/-- Category and problem filter values are not plain strings (as typed by
`SearchFilters`); plain strings would make Python `in` a substring test. -/
def notPlainStr : Option FVal → Bool
  | some (.vStr _) => false
  | _ => true

/-- Well-typedness of the filters argument for confidence scoring. -/
def wellTypedFilters : Option FDict → Bool
  | none => true
  | some d => notPlainStr (fget d catKey) && notPlainStr (fget d probKey)

/-! Concrete sample data for witnesses and counterexamples. -/

/-- A minimal intervention record with the given identifier. -/
def mkIv (id : Str) : Intervention :=
  { id := id, problem := [], category := [], type := [], data := [], code := []
    speed_min := none, speed_max := none, priority := none, search_text := none }

/-- A minimal search result with the given identifier and confidence. -/
def mkRes (id : Str) (c : ℚ) : InterventionResult :=
  { intervention := mkIv id, confidence := c, relevance_score := c }

/-- The record of the spec example: problem Faded, category Road Sign, type STOP Sign. -/
def ivFaded : Intervention :=
  { mkIv "RS1".toList with
    problem := "Faded".toList, category := "Road Sign".toList, type := "STOP Sign".toList }

/-- The query of the spec example. -/
def qFaded : Str := "Faded STOP sign on 65 kmph highway".toList

/-- A record whose search text does not contain the query `hello`. -/
def ivZ : Intervention := { mkIv "Z1".toList with search_text := some "zzz".toList }

/-- A filters dict whose only field is set to `None` (no non-empty field). -/
def dNoneCat : FDict := [(catKey, FVal.vNone)]

/-- A record with partial speed information: `speed_min` missing, `speed_max` present. -/
def ivHalfSpeed : Intervention := { mkIv "S1".toList with speed_max := some 50 }

/-- Extracted entities: category Road Marking, problems [Faded], no speed. -/
def eRoadMarking : ExtractedEntities :=
  { problems := ["Faded".toList], category := some "Road Marking".toList, type := none
    speed := none, road_type := none, environment := none, urgency := none }

/-- Extracted entities: only a speed of 65. -/
def eSpeed65 : ExtractedEntities :=
  { problems := [], category := none, type := none, speed := some 65
    road_type := none, environment := none, urgency := none }

/-- Extracted entities with nothing extracted. -/
def eEmpty : ExtractedEntities :=
  { problems := [], category := none, type := none, speed := none
    road_type := none, environment := none, urgency := none }

/-! Theorems. -/

/-- Claim C9: a query whose ranked result list is empty produces exactly the
fixed no-results fallback text, and the LLM synthesis is invoked only when at
least one ranked result exists. -/
theorem synthesis_empty_fallback :
    ∀ results : List InterventionResult,
      (generate_synthesis results = .fallbackText noResultsMsg ↔ results = [])
      ∧ (∀ l, generate_synthesis results = .llmSynthesis l → results ≠ []) := by
  intro results
  refine ⟨⟨?_, ?_⟩, ?_⟩
  · intro h
    cases results with
    | nil => rfl
    | cons r rs => simp [generate_synthesis] at h
  · intro h; subst h; rfl
  · intro l h hne
    subst hne
    simp [generate_synthesis] at h

/-- Witness for `synthesis_empty_fallback` at a concrete one-result list. -/
theorem synthesis_empty_fallback_witness :
    ([mkRes "a".toList (1/2)] : List InterventionResult) ≠ [] :=
  (synthesis_empty_fallback [mkRes "a".toList (1/2)]).2 [mkIv "a".toList] rfl

/-- Claim C8 (amended): with both query bounds given, a record passes the speed
filter iff its speed range overlaps the query range or its `speed_min` field is
missing — regardless of `speed_max`; a record with `speed_min` present but
`speed_max` missing is excluded even though it has speed information. -/
theorem speed_filter_spec :
    ∀ (qmin qmax : Int) (x : Intervention),
      (speedMatch qmin qmax x = true ↔
        ((∃ a b, x.speed_min = some a ∧ x.speed_max = some b ∧ a ≤ qmax ∧ qmin ≤ b)
          ∨ x.speed_min = none))
      ∧ ∀ (db : List Intervention) (lim : Nat),
          search_by_filters db none none (some qmin) (some qmax) none lim
            = (db.filter (speedMatch qmin qmax)).take lim := by
  intro qmin qmax x
  constructor
  · cases hmin : x.speed_min with
    | none => simp [speedMatch, hmin]
    | some a =>
      cases hmax : x.speed_max with
      | none => simp [speedMatch, hmin, hmax]
      | some b => simp [speedMatch, hmin, hmax, ge_iff_le, and_assoc]
  · intro db lim
    simp [search_by_filters, truthyStrList, truthyOptStr]

/-- Claim C8 counterexample: the record with `speed_min` missing but
`speed_max = 50` is included by the code for the disjoint query range
[100, 200], though the claim (overlap, or no speed information at all)
excludes it. -/
theorem speed_filter_counterexample :
    speedMatch 100 200 ivHalfSpeed = true
    ∧ speedOverlapClaim 100 200 ivHalfSpeed = false := by decide

/-- The empty string is a substring of every string (Python `"" in s`). -/
theorem pyIn_nil (hay : Str) : pyIn [] hay = true := by
  cases hay <;> rfl

/-- Claim C10: an empty problem / category / type string always satisfies the
case-insensitive substring condition, so the corresponding boosts of
`apply_boost` and the increments of `_calculate_confidence` fire for every
query; with all three empty the structured confidence is 1 outright. -/
theorem empty_field_always_matches :
    ∀ (q : Str) (i : Intervention) (r : InterventionResult) (filters : Option FDict),
      (i.problem = [] → pyIn (lower i.problem) (lower q) = true)
      ∧ (i.category = [] → pyIn (lower i.category) (lower q) = true)
      ∧ (i.type = [] → pyIn (lower i.type) (lower q) = true)
      ∧ (i.problem = [] → i.category = [] → i.type = [] →
          calculate_confidence q i filters = 1)
      ∧ (r.intervention.problem = [] → r.intervention.category = [] →
          r.intervention.type = [] →
          (boostOne (lower q) r).confidence
            = min (r.confidence + 1/5
                + (if r.intervention.priority = some criticalStr then 1/20
                   else if r.intervention.priority = some highStr then 3/100 else 0)) 1) := by
  intro q i r filters
  refine ⟨?_, ?_, ?_, ?_, ?_⟩
  · intro h; rw [h]; exact pyIn_nil _
  · intro h; rw [h]; exact pyIn_nil _
  · intro h; rw [h]; exact pyIn_nil _
  · intro h1 h2 h3
    have e1 : pyIn (lower i.problem) (lower q) = true := by rw [h1]; exact pyIn_nil _
    have e2 : pyIn (lower i.category) (lower q) = true := by rw [h2]; exact pyIn_nil _
    have e3 : pyIn (lower i.type) (lower q) = true := by rw [h3]; exact pyIn_nil _
    simp only [calculate_confidence, e1, e2, e3, if_true]
    split_ifs <;> norm_num
  · intro h1 h2 h3
    have e1 : pyIn (lower r.intervention.problem) (lower q) = true := by
      rw [h1]; exact pyIn_nil _
    have e2 : pyIn (lower r.intervention.category) (lower q) = true := by
      rw [h2]; exact pyIn_nil _
    have e3 : pyIn (lower r.intervention.type) (lower q) = true := by
      rw [h3]; exact pyIn_nil _
    simp only [boostOne, e1, e2, e3, if_true]
    split_ifs <;> ring_nf

/-- Witness for `empty_field_always_matches` at a concrete empty-field record. -/
theorem empty_field_always_matches_witness :
    calculate_confidence "anything at all".toList (mkIv "a".toList) none = 1 :=
  (empty_field_always_matches "anything at all".toList (mkIv "a".toList)
    (mkRes "a".toList (1/2)) none).2.2.2.1 rfl rfl rfl

/-- Claim C4: `apply_boost` adds the sum of the four independent increments
(+0.10 problem substring, +0.05 category, +0.05 type, +0.05 Critical else
+0.03 High), clamps at 1.0, and copies the new confidence into
`relevance_score`. -/
theorem apply_boost_spec :
    ∀ (results : List InterventionResult) (query : Str),
      apply_boost results query = results.map (fun r =>
        { r with confidence := min (r.confidence + boostSpec query r.intervention) 1
                 relevance_score := min (r.confidence + boostSpec query r.intervention) 1 })
      ∧ ∀ r' ∈ apply_boost results query, r'.confidence ≤ 1 ∧ r'.relevance_score = r'.confidence := by
  intro results query
  have hone : ∀ r : InterventionResult, boostOne (lower query) r =
      { r with confidence := min (r.confidence + boostSpec query r.intervention) 1
               relevance_score := min (r.confidence + boostSpec query r.intervention) 1 } := by
    intro r
    simp only [boostOne, boostSpec]
    split_ifs <;> norm_num
  constructor
  · simp only [apply_boost]
    exact List.map_congr_left (fun r _ => hone r)
  · intro r' hr'
    simp only [apply_boost, List.mem_map] at hr'
    obtain ⟨r, _, hrr⟩ := hr'
    rw [hone r] at hrr
    subst hrr
    exact ⟨min_le_right _ _, rfl⟩

/-- Witness for `apply_boost_spec` at a concrete result and query. -/
theorem apply_boost_spec_witness :
    (mkRes "a".toList (7/10)).confidence ≤ 1
    ∧ (mkRes "a".toList (7/10)).relevance_score = (mkRes "a".toList (7/10)).confidence :=
  (apply_boost_spec [mkRes "a".toList (1/2)] []).2 (mkRes "a".toList (7/10))
    (by with_unfolding_all decide)

/-- The confidence-boost guard of `_calculate_confidence` agrees with plain
list membership when the filter value is not a plain string. -/
theorem guard_mem_eq (x : Str) (v : Option FVal) (h : notPlainStr v = true) :
    (truthy v && memFVal x v) = decide (x ∈ fvalList v) := by
  match v with
  | none => rfl
  | some .vNone => rfl
  | some (.vInt n) => simp [truthy, memFVal, fvalList]
  | some (.vStrs l) =>
    cases l with
    | nil => simp [truthy, memFVal, fvalList]
    | cons a t => simp [truthy, memFVal, fvalList]
  | some (.vStr s) => simp [notPlainStr] at h

/-- Claim C6 (amended): for list-typed filter fields the structured confidence
is `min(1, 0.5 + 0.2·[problem ⊆ query] + 0.15·[category ⊆ query] +
0.15·[type ⊆ query] + 0.1·[category ∈ filter list] + 0.1·[problem ∈ filter
list])`; the example record (problem Faded, category Road Sign, type STOP
Sign) on the example query scores 0.85 without filter memberships, because
`road sign` is not a substring of the query. -/
theorem calculate_confidence_spec :
    ∀ (q : Str) (x : Intervention) (filters : Option FDict),
      wellTypedFilters filters = true →
      calculate_confidence q x filters
        = min ((1:ℚ)/2 + (if pyIn (lower x.problem) (lower q) then 1/5 else 0)
            + (if pyIn (lower x.category) (lower q) then 3/20 else 0)
            + (if pyIn (lower x.type) (lower q) then 3/20 else 0)
            + (if x.category ∈ filterFieldList filters catKey then 1/10 else 0)
            + (if x.problem ∈ filterFieldList filters probKey then 1/10 else 0)) 1 := by
  intro q x filters hwt
  match filters with
  | none =>
    simp only [calculate_confidence, pyTruthyDict, Bool.false_eq_true, if_false]
    have h1 : filterFieldList none catKey = [] := rfl
    have h2 : filterFieldList none probKey = [] := rfl
    rw [h1, h2]
    simp only [List.not_mem_nil, ite_false, if_false, add_zero]
    split_ifs <;> ring_nf
  | some d =>
    have hcat : notPlainStr (fget d catKey) = true := by
      simp only [wellTypedFilters, Bool.and_eq_true] at hwt; exact hwt.1
    have hprob : notPlainStr (fget d probKey) = true := by
      simp only [wellTypedFilters, Bool.and_eq_true] at hwt; exact hwt.2
    match d with
    | [] =>
      simp only [calculate_confidence, pyTruthyDict, List.isEmpty_nil, Bool.not_true,
        Bool.false_eq_true, if_false]
      have h1 : filterFieldList (some []) catKey = [] := rfl
      have h2 : filterFieldList (some []) probKey = [] := rfl
      rw [h1, h2]
      simp only [List.not_mem_nil, ite_false, if_false, add_zero]
      split_ifs <;> ring_nf
    | p :: ps =>
      simp only [calculate_confidence, pyTruthyDict, List.isEmpty_cons, Bool.not_false,
        if_true, Option.getD_some, filterFieldList,
        guard_mem_eq x.category (fget (p :: ps) catKey) hcat,
        guard_mem_eq x.problem (fget (p :: ps) probKey) hprob,
        decide_eq_true_eq]
      split_ifs <;> ring_nf

/-- Witness for `calculate_confidence_spec` at a concrete query, record and
filters argument. -/
theorem calculate_confidence_spec_witness :
    calculate_confidence [] (mkIv "a".toList) none
      = min ((1:ℚ)/2 + (if pyIn (lower (mkIv "a".toList).problem) (lower []) then 1/5 else 0)
          + (if pyIn (lower (mkIv "a".toList).category) (lower []) then 3/20 else 0)
          + (if pyIn (lower (mkIv "a".toList).type) (lower []) then 3/20 else 0)
          + (if (mkIv "a".toList).category ∈ filterFieldList none catKey then 1/10 else 0)
          + (if (mkIv "a".toList).problem ∈ filterFieldList none probKey then 1/10 else 0)) 1 :=
  calculate_confidence_spec [] (mkIv "a".toList) none (by decide)

/-- Claim C6 counterexample: the spec example record scores 0.85, not 1.0, on
the example query (its category string does not occur in the query). -/
theorem calculate_confidence_counterexample :
    calculate_confidence qFaded ivFaded none = 17/20 ∧ ((17:ℚ)/20) ≠ 1 := by
  constructor
  · with_unfolding_all decide
  · norm_num

/-- Claim C5 (amended): the strategy runs the exact-match filter query iff the
filters dict is present and has at least one key — even a key whose value is
`None` or empty; only an absent or empty dict falls back to the pandas
regex text search of the lowered raw query (`re.search`; plain substring
containment exactly for queries without regex metacharacters), excluding
missing values and yielding `[]` when the query is not a valid regex, with
the first `limit` matches in store order.  Stated for every regex engine
`reCompile`, which the filter branch never consults. -/
theorem structured_search_branch :
    ∀ (reCompile : Str → Option (Str → Bool)) (db : List Intervention) (hasCol : Bool)
      (q : Str) (d : FDict) (lim : Nat),
      (d ≠ [] →
        structured_search reCompile db hasCol q (some d) lim
          = (search_by_filters db (asStrList (fget d catKey)) (asStrList (fget d probKey))
              (asInt (fget d sminKey)) (asInt (fget d smaxKey)) (asStr (fget d ircKey)) lim).map
              (fun x => { intervention := x, confidence := calculate_confidence q x (some d)
                          relevance_score := calculate_confidence q x (some d) }))
      ∧ structured_search reCompile db hasCol q (some []) lim
          = (match text_search reCompile db hasCol q lim with
              | none => []
              | some r => r).map
              (fun x => { intervention := x, confidence := calculate_confidence q x (some [])
                          relevance_score := calculate_confidence q x (some []) })
      ∧ structured_search reCompile db hasCol q none lim
          = (match text_search reCompile db hasCol q lim with
              | none => []
              | some r => r).map
              (fun x => { intervention := x, confidence := calculate_confidence q x none
                          relevance_score := calculate_confidence q x none }) := by
  intro reCompile db hasCol q d lim
  refine ⟨?_, ?_, ?_⟩
  · intro hd
    cases d with
    | nil => exact absurd rfl hd
    | cons p ps => rfl
  · rfl
  · rfl

/-- Witness for `structured_search_branch` on a concrete non-empty dict. -/
theorem structured_search_branch_witness :
    structured_search reCompileLit [] true [] (some dNoneCat) 0
      = (search_by_filters [] (asStrList (fget dNoneCat catKey)) (asStrList (fget dNoneCat probKey))
          (asInt (fget dNoneCat sminKey)) (asInt (fget dNoneCat smaxKey))
          (asStr (fget dNoneCat ircKey)) 0).map
          (fun x => { intervention := x, confidence := calculate_confidence [] x (some dNoneCat)
                      relevance_score := calculate_confidence [] x (some dNoneCat) }) :=
  (structured_search_branch reCompileLit [] true [] dNoneCat 0).1 (by decide)

/-- Claim C5 counterexample: a filters dict whose only field is `None` has no
non-empty field, yet the code takes the filter branch (returning the whole
store head, one record) instead of the text search, which matches nothing
here: the query `hello` is a literal pattern, so `re.search` on it is
substring containment (`reCompileLit`), and `hello` does not occur in the
record's search text `zzz`. -/
theorem structured_search_counterexample :
    (structured_search reCompileLit [ivZ] true "hello".toList (some dNoneCat) 10).length = 1
    ∧ text_search reCompileLit [ivZ] true "hello".toList 10 = some [] := by
  with_unfolding_all decide

/-- `find?` commutes with a map that does not change the predicate. -/
theorem find?_map_upd {α : Type} (g : α → α) (pred : α → Bool)
    (h : ∀ a, pred (g a) = pred a) (l : List α) :
    (l.map g).find? pred = (l.find? pred).map g := by
  induction l with
  | nil => rfl
  | cons a t ih =>
    cases hp : pred a with
    | true =>
      rw [List.map_cons, List.find?_cons_of_pos _ (by rw [h a, hp]),
        List.find?_cons_of_pos _ hp]
      rfl
    | false =>
      rw [List.map_cons, List.find?_cons_of_neg _ (by simp [h a, hp]),
        List.find?_cons_of_neg _ (by simp [hp]), ih]

/-- Reading back a dict after `d[k] = v`. -/
theorem fget_dictSet (d : FDict) (k k2 : Str) (v : FVal) :
    fget (dictSet d k v) k2 = if k2 = k then some v else fget d k2 := by
  by_cases hf : (d.find? (fun p => p.1 = k)).isSome = true
  · unfold dictSet fget
    rw [if_pos hf, find?_map_upd (fun p => if p.1 = k then (p.1, v) else p)
      (fun p => p.1 = k2) (fun a => by by_cases ha : a.1 = k <;> simp [ha]) d]
    by_cases hk : k2 = k
    · subst hk
      rw [if_pos rfl]
      obtain ⟨p0, hp0⟩ := Option.isSome_iff_exists.mp hf
      have hkey : p0.1 = k2 := by simpa using List.find?_some hp0
      rw [hp0]
      simp [hkey]
    · rw [if_neg hk]
      cases hfind : d.find? (fun p => p.1 = k2) with
      | none => simp
      | some p0 =>
        have hkey : p0.1 = k2 := by simpa using List.find?_some hfind
        have hne : ¬p0.1 = k := by rw [hkey]; exact hk
        simp [hne]
  · unfold dictSet fget
    rw [if_neg hf, List.find?_append]
    by_cases hk : k2 = k
    · subst hk
      have hnone : d.find? (fun p => p.1 = k2) = none :=
        Option.not_isSome_iff_eq_none.mp hf
      rw [hnone]
      simp [List.find?]
    · have hkk : ¬(k = k2) := fun h => hk h.symm
      cases hfind : d.find? (fun p => p.1 = k2) with
      | none => simp [List.find?, hkk, hk]
      | some p0 => simp [List.find?, hkk, hk]

theorem key_ne_cp : catKey ≠ probKey := by decide

theorem key_ne_cs : catKey ≠ sminKey := by decide

theorem key_ne_cx : catKey ≠ smaxKey := by decide

theorem key_ne_pc : probKey ≠ catKey := by decide

theorem key_ne_ps : probKey ≠ sminKey := by decide

theorem key_ne_px : probKey ≠ smaxKey := by decide

theorem key_ne_sc : sminKey ≠ catKey := by decide

theorem key_ne_sp : sminKey ≠ probKey := by decide

theorem key_ne_sx : sminKey ≠ smaxKey := by decide

theorem key_ne_xc : smaxKey ≠ catKey := by decide

theorem key_ne_xp : smaxKey ≠ probKey := by decide

theorem key_ne_xs : smaxKey ≠ sminKey := by decide

/-- Claim C7 (amended): merging keeps a caller-supplied field exactly when its
value is truthy (a falsy caller value — `None`, empty list, or 0 — counts as
unset and is filled from the extracted entities); category / problem are
filled from the entities only under that condition, and a nonzero extracted
speed with both caller speed bounds falsy yields the window
`[max 0 (v-20), v+20]`.  Other keys are never touched.  The spec examples
(caller category wins over extracted category while problem is filled; speed
65 alone gives bounds 45 / 85) hold. -/
theorem merge_filters_spec :
    ∀ (f : FDict) (e : ExtractedEntities),
      (fget (merge_filters f e) catKey =
        match e.category with
        | some c => if !c.isEmpty && !truthy (fget f catKey) then some (.vStrs [c])
            else fget f catKey
        | none => fget f catKey)
      ∧ (fget (merge_filters f e) probKey =
          if !e.problems.isEmpty && !truthy (fget f probKey) then some (.vStrs e.problems)
          else fget f probKey)
      ∧ (fget (merge_filters f e) sminKey =
          match e.speed with
          | some v => if !(v = 0 : Bool) && (!truthy (fget f sminKey) && !truthy (fget f smaxKey))
              then some (.vInt (max 0 (v - 20))) else fget f sminKey
          | none => fget f sminKey)
      ∧ (fget (merge_filters f e) smaxKey =
          match e.speed with
          | some v => if !(v = 0 : Bool) && (!truthy (fget f sminKey) && !truthy (fget f smaxKey))
              then some (.vInt (v + 20)) else fget f smaxKey
          | none => fget f smaxKey)
      ∧ (∀ k, k ≠ catKey → k ≠ probKey → k ≠ sminKey → k ≠ smaxKey →
          fget (merge_filters f e) k = fget f k)
      ∧ merge_filters [(catKey, .vStrs ["Road Sign".toList])] eRoadMarking
          = [(catKey, .vStrs ["Road Sign".toList]), (probKey, .vStrs ["Faded".toList])]
      ∧ merge_filters [] eSpeed65 = [(sminKey, .vInt 45), (smaxKey, .vInt 85)] := by
  intro f e
  refine ⟨?_, ?_, ?_, ?_, ?_, by decide, by decide⟩
  · cases hc : e.category <;> cases hs : e.speed <;>
      simp only [merge_filters, hc, hs] <;> split_ifs <;>
      simp_all [fget_dictSet, key_ne_cp, key_ne_cs, key_ne_cx, key_ne_pc, key_ne_ps,
        key_ne_px, key_ne_sc, key_ne_sp, key_ne_sx, key_ne_xc, key_ne_xp, key_ne_xs]
  · cases hc : e.category <;> cases hs : e.speed <;>
      simp only [merge_filters, hc, hs] <;> split_ifs <;>
      simp_all [fget_dictSet, key_ne_cp, key_ne_cs, key_ne_cx, key_ne_pc, key_ne_ps,
        key_ne_px, key_ne_sc, key_ne_sp, key_ne_sx, key_ne_xc, key_ne_xp, key_ne_xs]
  · cases hc : e.category <;> cases hs : e.speed <;>
      simp only [merge_filters, hc, hs] <;> split_ifs <;>
      simp_all [fget_dictSet, key_ne_cp, key_ne_cs, key_ne_cx, key_ne_pc, key_ne_ps,
        key_ne_px, key_ne_sc, key_ne_sp, key_ne_sx, key_ne_xc, key_ne_xp, key_ne_xs]
  · cases hc : e.category <;> cases hs : e.speed <;>
      simp only [merge_filters, hc, hs] <;> split_ifs <;>
      simp_all [fget_dictSet, key_ne_cp, key_ne_cs, key_ne_cx, key_ne_pc, key_ne_ps,
        key_ne_px, key_ne_sc, key_ne_sp, key_ne_sx, key_ne_xc, key_ne_xp, key_ne_xs]
  · intro k hkc hkp hks hkx
    cases hc : e.category <;> cases hs : e.speed <;>
      simp only [merge_filters, hc, hs] <;> split_ifs <;>
      simp_all [fget_dictSet, key_ne_cp, key_ne_cs, key_ne_cx, key_ne_pc, key_ne_ps,
        key_ne_px, key_ne_sc, key_ne_sp, key_ne_sx, key_ne_xc, key_ne_xp, key_ne_xs]

/-- Witness for `merge_filters_spec` at a concrete dict, entities and key. -/
theorem merge_filters_spec_witness :
    fget (merge_filters [] eEmpty) "other".toList = fget [] "other".toList :=
  (merge_filters_spec [] eEmpty).2.2.2.2.1 "other".toList
    (by decide) (by decide) (by decide) (by decide)

/-- Claim C7 counterexample: a caller-supplied empty category list is not kept
— it is falsy, so the extracted category overwrites it. -/
theorem merge_filters_counterexample :
    fget (merge_filters [(catKey, FVal.vStrs [])] eRoadMarking) catKey
      = some (FVal.vStrs ["Road Marking".toList])
    ∧ some (FVal.vStrs ["Road Marking".toList]) ≠ some (FVal.vStrs ([] : List Str)) := by
  refine ⟨by decide, by decide⟩

/-- `find?` only depends on the predicate values on the list members. -/
theorem find?_congr_mem {α : Type} (p q : α → Bool) :
    ∀ l : List α, (∀ a ∈ l, p a = q a) → l.find? p = l.find? q := by
  intro l
  induction l with
  | nil => intro _; rfl
  | cons a t ih =>
    intro h
    cases hp : p a with
    | true =>
      rw [List.find?_cons_of_pos _ hp, List.find?_cons_of_pos]
      rw [← h a (List.mem_cons_self a t), hp]
    | false =>
      rw [List.find?_cons_of_neg _ (by simp [hp]),
        List.find?_cons_of_neg _ (by simp [← h a (List.mem_cons_self a t), hp]),
        ih (fun x hx => h x (List.mem_cons_of_mem a hx))]

/-- Reading back the `seen_ids` dict after one `deduplicate` loop step. -/
theorem findVal_dedupInsert (s : List (Str × InterventionResult))
    (r : InterventionResult) (id : Str) :
    findVal (dedupInsert s r) id =
      if r.intervention.id = id then
        match findVal s id with
        | none => some r
        | some b => some (betterOf b r)
      else findVal s id := by
  unfold dedupInsert findVal
  cases hfind : s.find? (fun p => p.1 = r.intervention.id) with
  | none =>
    rw [List.find?_append]
    by_cases hid : r.intervention.id = id
    · subst hid
      rw [hfind]
      simp [List.find?]
    · rw [if_neg hid]
      simp [List.find?, hid]
  | some p =>
    dsimp only
    by_cases hconf : r.confidence > p.2.confidence
    · rw [if_pos hconf]
      rw [find?_map_upd (fun q => if q.1 = r.intervention.id then (q.1, r) else q)
        (fun q => q.1 = id) (fun a => by by_cases ha : a.1 = r.intervention.id <;> simp [ha]) s]
      by_cases hid : r.intervention.id = id
      · subst hid
        rw [hfind]
        have hkey : p.1 = r.intervention.id := by simpa using List.find?_some hfind
        simp [hkey, betterOf, hconf]
      · rw [if_neg hid]
        cases hfind2 : s.find? (fun q => q.1 = id) with
        | none => simp
        | some p2 =>
          have hkey2 : p2.1 = id := by simpa using List.find?_some hfind2
          have hne : ¬p2.1 = r.intervention.id := by
            rw [hkey2]; exact fun h => hid h.symm
          simp [hne]
    · rw [if_neg hconf]
      by_cases hid : r.intervention.id = id
      · subst hid
        rw [hfind]
        simp [betterOf, hconf]
      · rw [if_neg hid]

/-- Folding `deduplicate` over a list: the dict entry of each identifier is the
first-seen result improved only by strictly greater confidence. -/
theorem dedup_foldl_findVal :
    ∀ (l : List InterventionResult) (s : List (Str × InterventionResult)) (id : Str),
      findVal (l.foldl dedupInsert s) id =
        match findVal s id with
        | some b => some ((l.filter (fun r => r.intervention.id = id)).foldl betterOf b)
        | none => bestFirstSpec (l.filter (fun r => r.intervention.id = id)) := by
  intro l
  induction l with
  | nil =>
    intro s id
    cases h : findVal s id <;> simp [bestFirstSpec, h]
  | cons r rs ih =>
    intro s id
    rw [List.foldl_cons, ih]
    by_cases hid : r.intervention.id = id
    · rw [findVal_dedupInsert, if_pos hid]
      have hfil : (r :: rs).filter (fun x => x.intervention.id = id)
          = r :: rs.filter (fun x => x.intervention.id = id) :=
        List.filter_cons_of_pos (by simp [hid])
      rw [hfil]
      cases h : findVal s id with
      | none => simp [bestFirstSpec]
      | some b => simp [List.foldl_cons]
    · rw [findVal_dedupInsert, if_neg hid]
      have hfil : (r :: rs).filter (fun x => x.intervention.id = id)
          = rs.filter (fun x => x.intervention.id = id) :=
        List.filter_cons_of_neg (by simp [hid])
      rw [hfil]

/-- Every value stored in the `seen_ids` dict carries its own key. -/
theorem dedup_state_value_id :
    ∀ (l : List InterventionResult) (s : List (Str × InterventionResult)),
      (∀ p ∈ s, p.2.intervention.id = p.1) →
      ∀ p ∈ l.foldl dedupInsert s, p.2.intervention.id = p.1 := by
  intro l
  induction l with
  | nil => intro s hs; exact hs
  | cons r rs ih =>
    intro s hs
    rw [List.foldl_cons]
    apply ih
    intro p hp
    unfold dedupInsert at hp
    cases hfind : s.find? (fun q => q.1 = r.intervention.id) with
    | none =>
      rw [hfind] at hp
      rcases List.mem_append.mp hp with h | h
      · exact hs p h
      · simp only [List.mem_singleton] at h
        rw [h]
    | some q0 =>
      rw [hfind] at hp
      dsimp only at hp
      by_cases hc : r.confidence > q0.2.confidence
      · rw [if_pos hc] at hp
        obtain ⟨q, hq, hqp⟩ := List.mem_map.mp hp
        by_cases hqk : q.1 = r.intervention.id
        · rw [if_pos hqk] at hqp
          rw [← hqp]
          exact hqk.symm
        · rw [if_neg hqk] at hqp
          rw [← hqp]
          exact hs q hq
      · rw [if_neg hc] at hp
        exact hs p hp

/-- The `seen_ids` dict never holds two entries with the same key. -/
theorem dedup_state_keys_nodup :
    ∀ (l : List InterventionResult) (s : List (Str × InterventionResult)),
      (s.map (fun p => p.1)).Nodup →
      ((l.foldl dedupInsert s).map (fun p => p.1)).Nodup := by
  intro l
  induction l with
  | nil => intro s hs; exact hs
  | cons r rs ih =>
    intro s hs
    rw [List.foldl_cons]
    apply ih
    unfold dedupInsert
    cases hfind : s.find? (fun q => q.1 = r.intervention.id) with
    | none =>
      have hnotmem : r.intervention.id ∉ s.map (fun p => p.1) := by
        intro hmem
        obtain ⟨p, hp, hpk⟩ := List.mem_map.mp hmem
        have := List.find?_eq_none.mp hfind p hp
        simp [hpk] at this
      rw [List.map_append]
      refine List.Nodup.append hs (List.nodup_singleton _) ?_
      intro x hx1 hx2
      simp only [List.map_cons, List.map_nil, List.mem_singleton] at hx2
      rw [hx2] at hx1
      exact hnotmem hx1
    | some q0 =>
      dsimp only
      by_cases hc : r.confidence > q0.2.confidence
      · rw [if_pos hc]
        have hkeys : (s.map (fun q => if q.1 = r.intervention.id then (q.1, r) else q)).map
            (fun p => p.1) = s.map (fun p => p.1) := by
          rw [List.map_map]
          exact List.map_congr_left (fun a _ => by by_cases h : a.1 = r.intervention.id <;> simp [h])
        rw [hkeys]
        exact hs
      · rw [if_neg hc]
        exact hs

/-- Counting one key in a key-nodup association list. -/
theorem countP_key_nodup :
    ∀ (s : List (Str × InterventionResult)) (id : Str),
      (s.map (fun p => p.1)).Nodup →
      s.countP (fun p => p.1 = id) = if id ∈ s.map (fun p => p.1) then 1 else 0 := by
  intro s id
  induction s with
  | nil => intro _; simp
  | cons p ps ih =>
    intro hnd
    simp only [List.map_cons, List.nodup_cons] at hnd
    by_cases hp : p.1 = id
    · rw [List.countP_cons_of_pos _ _ (by simp [hp])]
      have hzero : ps.countP (fun q => q.1 = id) = 0 := by
        rw [List.countP_eq_zero]
        intro q hq
        simp only [decide_eq_true_eq]
        intro hqk
        exact hnd.1 (by rw [← hp] at hqk; exact List.mem_map.mpr ⟨q, hq, hqk⟩)
      rw [hzero]
      have hmem : id ∈ List.map (fun q => q.1) (p :: ps) := by
        simp only [List.map_cons, List.mem_cons]
        exact Or.inl hp.symm
      rw [if_pos hmem]
    · rw [List.countP_cons_of_neg _ _ (by simp [hp])]
      rw [ih hnd.2]
      have : (id ∈ p.1 :: ps.map (fun q => q.1)) ↔ id ∈ ps.map (fun q => q.1) := by
        simp only [List.mem_cons]
        constructor
        · rintro (h | h)
          · exact absurd h.symm hp
          · exact h
        · exact Or.inr
      simp only [List.map_cons]
      rw [if_congr this rfl rfl]

/-- Claim C3: `deduplicate` keeps exactly one result per distinct identifier —
the first-seen one, replaced only by a later strictly-greater-confidence one
(ties keep the first); on the 0.4/0.7 pair, in either order, exactly the 0.7
result is retained. -/
theorem deduplicate_spec :
    ∀ (l : List InterventionResult) (id : Str),
      (((deduplicate l).filter (fun r => r.intervention.id = id)).length
          = if id ∈ idsOf l then 1 else 0)
      ∧ ((deduplicate l).find? (fun r => r.intervention.id = id)
          = bestFirstSpec (l.filter (fun r => r.intervention.id = id)))
      ∧ deduplicate [mkRes "a".toList (2/5), mkRes "a".toList (7/10)]
          = [mkRes "a".toList (7/10)]
      ∧ deduplicate [mkRes "a".toList (7/10), mkRes "a".toList (2/5)]
          = [mkRes "a".toList (7/10)] := by
  intro l id
  have hval : ∀ p ∈ l.foldl dedupInsert [], p.2.intervention.id = p.1 :=
    dedup_state_value_id l [] (by simp)
  have hnd : ((l.foldl dedupInsert []).map (fun p => p.1)).Nodup :=
    dedup_state_keys_nodup l [] (by simp)
  have hlookup : findVal (l.foldl dedupInsert []) id
      = bestFirstSpec (l.filter (fun r => r.intervention.id = id)) := by
    have h := dedup_foldl_findVal l [] id
    simpa [findVal] using h
  have hdedup : deduplicate l = (l.foldl dedupInsert []).map (fun p => p.2) := rfl
  refine ⟨?_, ?_, by with_unfolding_all decide, by with_unfolding_all decide⟩
  · have hiff : (id ∈ (l.foldl dedupInsert []).map (fun p => p.1)) ↔ id ∈ idsOf l := by
      constructor
      · intro hmem
        obtain ⟨p, hp, hpk⟩ := List.mem_map.mp hmem
        have hsome : (List.find? (fun q => q.1 = id) (l.foldl dedupInsert [])).isSome :=
          List.find?_isSome.mpr ⟨p, hp, by simp [hpk]⟩
        cases hfind : List.find? (fun q => q.1 = id) (l.foldl dedupInsert []) with
        | none => rw [hfind] at hsome; simp at hsome
        | some q1 =>
          have hv : findVal (l.foldl dedupInsert []) id = some q1.2 := by
            unfold findVal; rw [hfind]; rfl
          rw [hlookup] at hv
          cases hfil : l.filter (fun r => r.intervention.id = id) with
          | nil => rw [hfil] at hv; simp [bestFirstSpec] at hv
          | cons r0 rest =>
            have hr0 : r0 ∈ l.filter (fun r => r.intervention.id = id) := by
              rw [hfil]; exact List.mem_cons_self _ _
            have hm := List.mem_filter.mp hr0
            exact List.mem_map.mpr ⟨r0, hm.1, by simpa using hm.2⟩
      · intro hmem
        obtain ⟨r0, hr0, hr0id⟩ := List.mem_map.mp hmem
        have hr0f : r0 ∈ l.filter (fun r => r.intervention.id = id) :=
          List.mem_filter.mpr ⟨hr0, by simp [hr0id]⟩
        cases hfil : l.filter (fun r => r.intervention.id = id) with
        | nil => rw [hfil] at hr0f; exact absurd hr0f (List.not_mem_nil r0)
        | cons r1 rest =>
          have hbfs : findVal (l.foldl dedupInsert []) id = some (rest.foldl betterOf r1) := by
            rw [hlookup, hfil]; rfl
          unfold findVal at hbfs
          cases hfind : List.find? (fun q => q.1 = id) (l.foldl dedupInsert []) with
          | none => rw [hfind] at hbfs; simp at hbfs
          | some q1 =>
            exact List.mem_map.mpr ⟨q1, List.mem_of_find?_eq_some hfind, by
              simpa using List.find?_some hfind⟩
    rw [hdedup, ← List.countP_eq_length_filter, List.countP_map]
    have hcc : List.countP
        ((fun r : InterventionResult => decide (r.intervention.id = id))
          ∘ (fun p : Str × InterventionResult => p.2)) (l.foldl dedupInsert [])
        = List.countP (fun p : Str × InterventionResult => p.1 = id) (l.foldl dedupInsert []) :=
      List.countP_congr (fun p hp => by
        simp only [Function.comp_apply, decide_eq_true_eq]
        rw [hval p hp])
    rw [hcc, countP_key_nodup _ id hnd, if_congr hiff rfl rfl]
  · rw [hdedup, List.find?_map]
    rw [find?_congr_mem _ (fun p => p.1 = id) _ (fun p hp => by simp [hval p hp])]
    exact hlookup


/-- Reading back the RRF score dict after one accumulation step. -/
theorem rrfLookup_rrfInsert (s : RRFState) (id0 : Str) (sc : ℚ)
    (r : InterventionResult) (id : Str) :
    rrfLookup (rrfInsert s id0 sc r) id =
      if id0 = id then
        match rrfLookup s id with
        | none => some (sc, r)
        | some q => some (q.1 + sc, q.2)
      else rrfLookup s id := by
  unfold rrfInsert rrfLookup
  by_cases hf : (s.find? (fun p => p.1 = id0)).isSome = true
  · rw [if_pos hf]
    rw [find?_map_upd (fun p => if p.1 = id0 then (p.1, p.2.1 + sc, p.2.2) else p)
      (fun p => p.1 = id) (fun a => by by_cases ha : a.1 = id0 <;> simp [ha]) s]
    by_cases hid : id0 = id
    · subst hid
      obtain ⟨p0, hp0⟩ := Option.isSome_iff_exists.mp hf
      have hkey : p0.1 = id0 := by simpa using List.find?_some hp0
      rw [hp0]
      simp [hkey]
    · rw [if_neg hid]
      cases hfind : s.find? (fun p => p.1 = id) with
      | none => simp
      | some p0 =>
        have hkey : p0.1 = id := by simpa using List.find?_some hfind
        have hne : ¬p0.1 = id0 := by rw [hkey]; exact fun h => hid h.symm
        simp [hne]
  · rw [if_neg hf]
    rw [List.find?_append]
    by_cases hid : id0 = id
    · subst hid
      have hnone : s.find? (fun p => p.1 = id0) = none :=
        Option.not_isSome_iff_eq_none.mp hf
      rw [hnone]
      simp [List.find?]
    · cases hfind : s.find? (fun p => p.1 = id) with
      | none => simp [List.find?, hid]
      | some p0 => simp [List.find?, hid]

/-- An identifier absent from a list contributes nothing to its rank sum. -/
theorem rankSum_eq_zero :
    ∀ (rank : Nat) (id : Str) (l : List InterventionResult),
      (∀ r ∈ l, r.intervention.id ≠ id) → rankSum rank id l = 0 := by
  intro rank id l
  induction l generalizing rank with
  | nil => intro _; rfl
  | cons r rs ih =>
    intro h
    have hr : r.intervention.id ≠ id := h r (List.mem_cons_self r rs)
    simp only [rankSum, if_neg hr]
    rw [ih (rank + 1) (fun x hx => h x (List.mem_cons_of_mem r hx))]
    ring

/-- Rank sums are nonnegative. -/
theorem rankSum_nonneg :
    ∀ (rank : Nat) (id : Str) (l : List InterventionResult), 0 ≤ rankSum rank id l := by
  intro rank id l
  induction l generalizing rank with
  | nil => exact le_refl 0
  | cons r rs ih =>
    simp only [rankSum]
    refine add_nonneg ?_ (ih (rank + 1))
    split_ifs
    · apply div_nonneg zero_le_one
      have : (0:ℚ) ≤ (rank : ℚ) := Nat.cast_nonneg rank
      unfold rrfK
      linarith
    · exact le_refl 0

/-- The RRF accumulation loop: the dict entry of an identifier accumulates the
rank sum of the processed list onto the prior score, with the first-seen
result as representative. -/
theorem rrfLookup_rrfAddList :
    ∀ (l : List InterventionResult) (rank : Nat) (s : RRFState) (id : Str),
      rrfLookup (rrfAddList rank l s) id =
        match rrfLookup s id with
        | some q => some (q.1 + rankSum rank id l, q.2)
        | none => (l.find? (fun r => r.intervention.id = id)).map
            (fun r0 => (rankSum rank id l, r0)) := by
  intro l
  induction l with
  | nil =>
    intro rank s id
    cases h : rrfLookup s id <;> simp [rrfAddList, rankSum, h]
  | cons r rs ih =>
    intro rank s id
    rw [show rrfAddList rank (r :: rs) s
        = rrfAddList (rank + 1) rs (rrfInsert s r.intervention.id (1 / (rrfK + (rank:ℚ))) r)
      from rfl]
    rw [ih, rrfLookup_rrfInsert]
    by_cases hid : r.intervention.id = id
    · rw [if_pos hid]
      have hsum : rankSum rank id (r :: rs)
          = 1 / (rrfK + (rank:ℚ)) + rankSum (rank + 1) id rs := by
        simp [rankSum, hid]
      cases h : rrfLookup s id with
      | none =>
        rw [List.find?_cons_of_pos _ (by simp [hid])]
        simp [hsum]
      | some q =>
        simp only [hsum]
        rw [add_assoc]
    · rw [if_neg hid]
      have hsum : rankSum rank id (r :: rs) = rankSum (rank + 1) id rs := by
        simp [rankSum, hid]
      rw [List.find?_cons_of_neg _ (by simp [hid]), hsum]

/-- Every value stored in the RRF dict carries its own key. -/
theorem rrf_state_value_id :
    ∀ (l : List InterventionResult) (rank : Nat) (s : RRFState),
      (∀ p ∈ s, p.2.2.intervention.id = p.1) →
      ∀ p ∈ rrfAddList rank l s, p.2.2.intervention.id = p.1 := by
  intro l
  induction l with
  | nil => intro rank s hs; exact hs
  | cons r rs ih =>
    intro rank s hs
    rw [show rrfAddList rank (r :: rs) s
        = rrfAddList (rank + 1) rs (rrfInsert s r.intervention.id (1 / (rrfK + (rank:ℚ))) r)
      from rfl]
    apply ih
    intro p hp
    unfold rrfInsert at hp
    by_cases hf : (s.find? (fun q => q.1 = r.intervention.id)).isSome = true
    · rw [if_pos hf] at hp
      obtain ⟨q, hq, hqp⟩ := List.mem_map.mp hp
      by_cases hqk : q.1 = r.intervention.id
      · rw [if_pos hqk] at hqp
        rw [← hqp]
        exact hs q hq
      · rw [if_neg hqk] at hqp
        rw [← hqp]
        exact hs q hq
    · rw [if_neg hf] at hp
      rcases List.mem_append.mp hp with h | h
      · exact hs p h
      · simp only [List.mem_singleton] at h
        rw [h]
    
/-- The RRF dict never holds two entries with the same key. -/
theorem rrf_state_keys_nodup :
    ∀ (l : List InterventionResult) (rank : Nat) (s : RRFState),
      (s.map (fun p => p.1)).Nodup →
      ((rrfAddList rank l s).map (fun p => p.1)).Nodup := by
  intro l
  induction l with
  | nil => intro rank s hs; exact hs
  | cons r rs ih =>
    intro rank s hs
    rw [show rrfAddList rank (r :: rs) s
        = rrfAddList (rank + 1) rs (rrfInsert s r.intervention.id (1 / (rrfK + (rank:ℚ))) r)
      from rfl]
    apply ih
    unfold rrfInsert
    by_cases hf : (s.find? (fun q => q.1 = r.intervention.id)).isSome = true
    · rw [if_pos hf]
      have hkeys : (s.map (fun p => if p.1 = r.intervention.id then (p.1, p.2.1 + 1 / (rrfK + (rank:ℚ)), p.2.2) else p)).map
          (fun p => p.1) = s.map (fun p => p.1) := by
        rw [List.map_map]
        exact List.map_congr_left (fun a _ => by
          by_cases h : a.1 = r.intervention.id <;> simp [h])
      rw [hkeys]
      exact hs
    · rw [if_neg hf]
      have hnone : s.find? (fun q => q.1 = r.intervention.id) = none :=
        Option.not_isSome_iff_eq_none.mp hf
      have hnotmem : r.intervention.id ∉ s.map (fun p => p.1) := by
        intro hmem
        obtain ⟨p, hp, hpk⟩ := List.mem_map.mp hmem
        have := List.find?_eq_none.mp hnone p hp
        simp [hpk] at this
      rw [List.map_append]
      refine List.Nodup.append hs (List.nodup_singleton _) ?_
      intro x hx1 hx2
      simp only [List.map_cons, List.map_nil, List.mem_singleton] at hx2
      rw [hx2] at hx1
      exact hnotmem hx1

/-- Stable descending insertion permutes. -/
theorem insertDesc_perm {α : Type} (key : α → ℚ) (x : α) :
    ∀ l : List α, (insertDesc key x l).Perm (x :: l) := by
  intro l
  induction l with
  | nil => exact List.Perm.refl _
  | cons y ys ih =>
    unfold insertDesc
    by_cases h : key x > key y
    · rw [if_pos h]
    · rw [if_neg h]
      exact (ih.cons y).trans (List.Perm.swap x y ys)

/-- The stable descending sort permutes its input. -/
theorem sortDesc_perm {α : Type} (key : α → ℚ) :
    ∀ (l acc : List α), (l.foldl (fun a x => insertDesc key x a) acc).Perm (acc ++ l) := by
  intro l
  induction l with
  | nil => intro acc; simp
  | cons x xs ih =>
    intro acc
    rw [List.foldl_cons]
    refine (ih (insertDesc key x acc)).trans ?_
    refine (List.Perm.append_right xs (insertDesc_perm key x acc)).trans ?_
    exact List.perm_middle.symm

/-- `sortDesc` is a permutation. -/
theorem sortDesc_perm_self {α : Type} (key : α → ℚ) (l : List α) :
    (sortDesc key l).Perm l := by
  have h := sortDesc_perm key l []
  simpa [sortDesc] using h

/-- In a key-nodup list, `find?` by key returns the unique member with it. -/
theorem find_key_unique {α : Type} (g : α → Str) :
    ∀ (l : List α) (x : α) (id : Str), (l.map g).Nodup → x ∈ l → g x = id →
      l.find? (fun y => g y = id) = some x := by
  intro l
  induction l with
  | nil => intro x id _ hx _; exact absurd hx (List.not_mem_nil x)
  | cons a t ih =>
    intro x id hnd hx hgx
    simp only [List.map_cons, List.nodup_cons] at hnd
    rcases List.mem_cons.mp hx with h | h
    · subst h
      rw [List.find?_cons_of_pos _ (by simp [hgx])]
    · by_cases ha : g a = id
      · exfalso
        apply hnd.1
        have hmem : g x ∈ t.map g := List.mem_map.mpr ⟨x, h, rfl⟩
        rw [hgx, ← ha] at hmem
        exact hmem
      · rw [List.find?_cons_of_neg _ (by simp [ha])]
        exact ih x id hnd.2 h hgx

/-- Key-based `find?` is invariant under permutation when keys are nodup. -/
theorem find_key_perm {α : Type} (g : α → Str) (l l' : List α)
    (hp : l.Perm l') (hnd : (l.map g).Nodup) (id : Str) :
    l.find? (fun y => g y = id) = l'.find? (fun y => g y = id) := by
  cases hfind : l.find? (fun y => g y = id) with
  | none =>
    have hnone := List.find?_eq_none.mp hfind
    symm
    rw [List.find?_eq_none]
    intro x hx
    exact hnone x (hp.mem_iff.mpr hx)
  | some x =>
    have hx : x ∈ l := List.mem_of_find?_eq_some hfind
    have hgx : g x = id := by simpa using List.find?_some hfind
    symm
    exact find_key_unique g l' x id ((hp.map g).nodup hnd) (hp.mem_iff.mp hx) hgx

/-- The fused output holds, per identifier, exactly the dict entry with the
normalised score written into confidence and relevance. -/
theorem rrf_fused_find (rag str : List InterventionResult) (id : Str) :
    (reciprocal_rank_fusion rag str).find? (fun r => r.intervention.id = id)
      = (rrfLookup (rrfAddList 1 str (rrfAddList 1 rag [])) id).map
          (fun q => { q.2 with
            confidence := min (q.1 / ((1 / (rrfK + 1)) * 2)) 1
            relevance_score := min (q.1 / ((1 / (rrfK + 1)) * 2)) 1 }) := by
  have hval : ∀ p ∈ rrfAddList 1 str (rrfAddList 1 rag []), p.2.2.intervention.id = p.1 :=
    rrf_state_value_id str 1 _ (rrf_state_value_id rag 1 [] (by simp))
  have hnd : ((rrfAddList 1 str (rrfAddList 1 rag [])).map (fun p => p.1)).Nodup :=
    rrf_state_keys_nodup str 1 _ (rrf_state_keys_nodup rag 1 [] (by simp))
  have hsortnd : ((sortDesc (fun p : Str × ℚ × InterventionResult => p.2.1)
      (rrfAddList 1 str (rrfAddList 1 rag []))).map (fun p => p.1)).Nodup :=
    ((sortDesc_perm_self _ _).map (fun p : Str × ℚ × InterventionResult => p.1)).symm.nodup hnd
  have hout : reciprocal_rank_fusion rag str
      = (sortDesc (fun p : Str × ℚ × InterventionResult => p.2.1)
          (rrfAddList 1 str (rrfAddList 1 rag []))).map
        (fun p => { p.2.2 with
          confidence := min (p.2.1 / ((1 / (rrfK + 1)) * 2)) 1
          relevance_score := min (p.2.1 / ((1 / (rrfK + 1)) * 2)) 1 }) := rfl
  rw [hout, List.find?_map]
  rw [find?_congr_mem _ (fun p => p.1 = id) _ (fun p hp => by
    have hpid : p.2.2.intervention.id = p.1 :=
      hval p ((sortDesc_perm_self _ _).mem_iff.mp hp)
    simp [hpid])]
  rw [find_key_perm (fun p : Str × ℚ × InterventionResult => p.1) _ _
    (sortDesc_perm_self _ _) hsortnd id]
  unfold rrfLookup
  cases hfind : (rrfAddList 1 str (rrfAddList 1 rag [])).find? (fun p => p.1 = id) <;> simp

/-- The final RRF dict entry of each identifier: the spec score together with
the first-seen representative (from the RAG list when present there). -/
theorem rrf_state_score (rag str : List InterventionResult) (id : Str) :
    rrfLookup (rrfAddList 1 str (rrfAddList 1 rag [])) id =
      match rag.find? (fun r => r.intervention.id = id),
          str.find? (fun r => r.intervention.id = id) with
      | some r0, _ => some (specScore rag str id, r0)
      | none, some r0 => some (specScore rag str id, r0)
      | none, none => none := by
  rw [rrfLookup_rrfAddList, rrfLookup_rrfAddList]
  cases hrag : rag.find? (fun r => r.intervention.id = id) with
  | some r0 =>
    simp [rrfLookup, specScore]
  | none =>
    have hz : rankSum 1 id rag = 0 := rankSum_eq_zero 1 id rag (fun r hr => by
      have := List.find?_eq_none.mp hrag r hr
      simpa using this)
    cases hstr : str.find? (fun r => r.intervention.id = id) with
    | some r1 => simp [rrfLookup, specScore, hz]
    | none => simp [rrfLookup]

/-- Claim C1: hybrid fusion gives each emitted result, as confidence and
relevance, its identifier's accumulated score — the sum of `1/(60+rank)` over
the occurrences in each input list, 1-based rank within that list — divided by
`2·(1/61)` and clamped at 1; an identifier ranked 1st in both lists gets
confidence 1, and one ranked 1st in exactly one list and occurring nowhere
else gets confidence 0.5. -/
theorem rrf_fusion_spec :
    ∀ (rag str : List InterventionResult),
      (∀ r' ∈ reciprocal_rank_fusion rag str,
        r'.confidence = min (specScore rag str r'.intervention.id / (2 * (1 / (rrfK + 1)))) 1
        ∧ r'.relevance_score = r'.confidence)
      ∧ (∀ a b rag₀ str₀, rag = a :: rag₀ → str = b :: str₀ →
          b.intervention.id = a.intervention.id →
          ∃ r' ∈ reciprocal_rank_fusion rag str,
            r'.intervention.id = a.intervention.id ∧ r'.confidence = 1)
      ∧ (∀ a rag₀, rag = a :: rag₀ → a.intervention.id ∉ idsOf rag₀ →
          a.intervention.id ∉ idsOf str →
          ∃ r' ∈ reciprocal_rank_fusion rag str,
            r'.intervention.id = a.intervention.id ∧ r'.confidence = 1/2)
      ∧ (∀ b str₀, str = b :: str₀ → b.intervention.id ∉ idsOf str₀ →
          b.intervention.id ∉ idsOf rag →
          ∃ r' ∈ reciprocal_rank_fusion rag str,
            r'.intervention.id = b.intervention.id ∧ r'.confidence = 1/2) := by
  intro rag str
  have hval : ∀ p ∈ rrfAddList 1 str (rrfAddList 1 rag []), p.2.2.intervention.id = p.1 :=
    rrf_state_value_id str 1 _ (rrf_state_value_id rag 1 [] (by simp))
  have hnd : ((rrfAddList 1 str (rrfAddList 1 rag [])).map (fun p => p.1)).Nodup :=
    rrf_state_keys_nodup str 1 _ (rrf_state_keys_nodup rag 1 [] (by simp))
  have hpos : (0:ℚ) < (1 / (rrfK + 1)) * 2 := by unfold rrfK; norm_num
  refine ⟨?_, ?_, ?_, ?_⟩
  · intro r' hr'
    have hout : reciprocal_rank_fusion rag str
        = (sortDesc (fun p : Str × ℚ × InterventionResult => p.2.1)
            (rrfAddList 1 str (rrfAddList 1 rag []))).map
          (fun p => { p.2.2 with
            confidence := min (p.2.1 / ((1 / (rrfK + 1)) * 2)) 1
            relevance_score := min (p.2.1 / ((1 / (rrfK + 1)) * 2)) 1 }) := rfl
    rw [hout] at hr'
    obtain ⟨p, hp, hpr⟩ := List.mem_map.mp hr'
    have hpstate : p ∈ rrfAddList 1 str (rrfAddList 1 rag []) :=
      (sortDesc_perm_self _ _).mem_iff.mp hp
    have hpid : p.2.2.intervention.id = p.1 := hval p hpstate
    have hfound : (rrfAddList 1 str (rrfAddList 1 rag [])).find? (fun q => q.1 = p.1) = some p :=
      find_key_unique (fun q : Str × ℚ × InterventionResult => q.1) _ p p.1 hnd hpstate rfl
    have hlook : rrfLookup (rrfAddList 1 str (rrfAddList 1 rag [])) p.1 = some p.2 := by
      unfold rrfLookup
      rw [hfound]
      rfl
    have hscore : p.2.1 = specScore rag str p.1 := by
      rw [rrf_state_score] at hlook
      cases hrag : rag.find? (fun r => r.intervention.id = p.1) with
      | some r0 =>
        rw [hrag] at hlook
        dsimp only at hlook
        have h := Option.some.inj hlook
        rw [← h]
      | none =>
        rw [hrag] at hlook
        cases hstr : str.find? (fun r => r.intervention.id = p.1) with
        | some r1 =>
          rw [hstr] at hlook
          dsimp only at hlook
          have h := Option.some.inj hlook
          rw [← h]
        | none =>
          rw [hstr] at hlook
          exact absurd hlook (by simp)
    constructor
    · rw [← hpr]
      show min (p.2.1 / ((1 / (rrfK + 1)) * 2)) 1
          = min (specScore rag str p.2.2.intervention.id / (2 * (1 / (rrfK + 1)))) 1
      rw [hpid, ← hscore, mul_comm (2:ℚ) (1 / (rrfK + 1))]
    · rw [← hpr]
  · intro a b rag₀ str₀ hrg hst hid
    subst hrg
    subst hst
    have hragf : (a :: rag₀).find? (fun r => r.intervention.id = a.intervention.id) = some a :=
      List.find?_cons_of_pos _ (by simp)
    have hstate := rrf_state_score (a :: rag₀) (b :: str₀) a.intervention.id
    rw [hragf] at hstate
    dsimp only at hstate
    have hfind := rrf_fused_find (a :: rag₀) (b :: str₀) a.intervention.id
    rw [hstate] at hfind
    refine ⟨_, List.mem_of_find?_eq_some hfind, ?_, ?_⟩
    · have h := List.find?_some hfind
      simpa using h
    · show min (specScore (a :: rag₀) (b :: str₀) a.intervention.id / ((1 / (rrfK + 1)) * 2)) 1 = 1
      have h1 : specScore (a :: rag₀) (b :: str₀) a.intervention.id
          = 1 / (rrfK + 1) + rankSum 2 a.intervention.id rag₀
            + (1 / (rrfK + 1) + rankSum 2 a.intervention.id str₀) := by
        simp [specScore, rankSum, hid]
      have h2 := rankSum_nonneg 2 a.intervention.id rag₀
      have h3 := rankSum_nonneg 2 a.intervention.id str₀
      have hge : (1 / (rrfK + 1)) * 2 ≤ specScore (a :: rag₀) (b :: str₀) a.intervention.id := by
        rw [h1]; linarith
      exact min_eq_right ((one_le_div hpos).mpr hge)
  · intro a rag₀ hrg hnot1 hnot2
    subst hrg
    have hragf : (a :: rag₀).find? (fun r => r.intervention.id = a.intervention.id) = some a :=
      List.find?_cons_of_pos _ (by simp)
    have hstate := rrf_state_score (a :: rag₀) str a.intervention.id
    rw [hragf] at hstate
    dsimp only at hstate
    have hfind := rrf_fused_find (a :: rag₀) str a.intervention.id
    rw [hstate] at hfind
    refine ⟨_, List.mem_of_find?_eq_some hfind, ?_, ?_⟩
    · have h := List.find?_some hfind
      simpa using h
    · show min (specScore (a :: rag₀) str a.intervention.id / ((1 / (rrfK + 1)) * 2)) 1 = 1/2
      have hz1 : rankSum 2 a.intervention.id rag₀ = 0 :=
        rankSum_eq_zero 2 a.intervention.id rag₀ (fun r hr heq =>
          hnot1 (List.mem_map.mpr ⟨r, hr, heq⟩))
      have hz2 : rankSum 1 a.intervention.id str = 0 :=
        rankSum_eq_zero 1 a.intervention.id str (fun r hr heq =>
          hnot2 (List.mem_map.mpr ⟨r, hr, heq⟩))
      have h1 : specScore (a :: rag₀) str a.intervention.id = 1 / (rrfK + 1) := by
        simp [specScore, rankSum, hz1, hz2]
      rw [h1]
      unfold rrfK
      norm_num
  · intro b str₀ hst hnot1 hnot2
    subst hst
    have hragn : rag.find? (fun r => r.intervention.id = b.intervention.id) = none :=
      List.find?_eq_none.mpr (fun r hr => by
        simp only [decide_eq_true_eq]
        exact fun heq => hnot2 (List.mem_map.mpr ⟨r, hr, heq⟩))
    have hstrf : (b :: str₀).find? (fun r => r.intervention.id = b.intervention.id) = some b :=
      List.find?_cons_of_pos _ (by simp)
    have hstate := rrf_state_score rag (b :: str₀) b.intervention.id
    rw [hragn, hstrf] at hstate
    dsimp only at hstate
    have hfind := rrf_fused_find rag (b :: str₀) b.intervention.id
    rw [hstate] at hfind
    refine ⟨_, List.mem_of_find?_eq_some hfind, ?_, ?_⟩
    · have h := List.find?_some hfind
      simpa using h
    · show min (specScore rag (b :: str₀) b.intervention.id / ((1 / (rrfK + 1)) * 2)) 1 = 1/2
      have hz1 : rankSum 1 b.intervention.id rag = 0 :=
        rankSum_eq_zero 1 b.intervention.id rag (fun r hr heq =>
          hnot2 (List.mem_map.mpr ⟨r, hr, heq⟩))
      have hz2 : rankSum 2 b.intervention.id str₀ = 0 :=
        rankSum_eq_zero 2 b.intervention.id str₀ (fun r hr heq =>
          hnot1 (List.mem_map.mpr ⟨r, hr, heq⟩))
      have h1 : specScore rag (b :: str₀) b.intervention.id = 1 / (rrfK + 1) := by
        simp [specScore, rankSum, hz1, hz2]
      rw [h1]
      unfold rrfK
      norm_num

/-- Witness for `rrf_fusion_spec`: the same identifier heading both lists is
emitted with confidence 1. -/
theorem rrf_fusion_spec_witness :
    ∃ r' ∈ reciprocal_rank_fusion [mkRes "a".toList (1/2)] [mkRes "a".toList (1/2)],
      r'.intervention.id = (mkRes "a".toList (1/2)).intervention.id ∧ r'.confidence = 1 :=
  (rrf_fusion_spec [mkRes "a".toList (1/2)] [mkRes "a".toList (1/2)]).2.1
    (mkRes "a".toList (1/2)) (mkRes "a".toList (1/2)) [] [] rfl rfl rfl

/-- Claim C2 (amended): exchanging the two input lists leaves every
identifier's accumulated score and emitted confidence unchanged; but the
emitted sequence itself may reorder identifiers with tied scores (the stable
sort follows first-seen insertion order), beyond a mere change of
representative object. -/
theorem rrf_commutes :
    ∀ (rag str : List InterventionResult) (id : Str),
      specScore rag str id = specScore str rag id
      ∧ emittedConf (reciprocal_rank_fusion rag str) id
          = emittedConf (reciprocal_rank_fusion str rag) id := by
  intro rag str id
  have hs : specScore rag str id = specScore str rag id := add_comm _ _
  refine ⟨hs, ?_⟩
  unfold emittedConf
  rw [rrf_fused_find, rrf_fused_find, rrf_state_score, rrf_state_score, hs]
  cases hrag : rag.find? (fun r => r.intervention.id = id) <;>
    cases hstr : str.find? (fun r => r.intervention.id = id) <;> rfl

/-- Claim C2 counterexample: with two distinct identifiers each heading one
list (tied scores), exchanging the lists reverses the emitted identifier
order. -/
theorem rrf_order_counterexample :
    idsOf (reciprocal_rank_fusion [mkRes "a".toList (1/2)] [mkRes "b".toList (1/2)])
        = ["a".toList, "b".toList]
    ∧ idsOf (reciprocal_rank_fusion [mkRes "b".toList (1/2)] [mkRes "a".toList (1/2)])
        = ["b".toList, "a".toList]
    ∧ (["a".toList, "b".toList] : List Str) ≠ ["b".toList, "a".toList] := by
  refine ⟨by with_unfolding_all decide, by with_unfolding_all decide, by decide⟩

/-- Witness for `speed_filter_spec` at a concrete query range and record. -/
theorem speed_filter_spec_witness :
    speedMatch 0 10 (mkIv "a".toList) = true :=
  (speed_filter_spec 0 10 (mkIv "a".toList)).1.mpr (Or.inr rfl)

/-- Witness for `deduplicate_spec` at a concrete list and identifier. -/
theorem deduplicate_spec_witness :
    (deduplicate [mkRes "a".toList (1/2)]).find?
        (fun r => r.intervention.id = "a".toList)
      = bestFirstSpec ([mkRes "a".toList (1/2)].filter
          (fun r => r.intervention.id = "a".toList)) :=
  (deduplicate_spec [mkRes "a".toList (1/2)] "a".toList).2.1

/-- Witness for `rrf_commutes` at concrete one-element lists. -/
theorem rrf_commutes_witness :
    emittedConf (reciprocal_rank_fusion [mkRes "a".toList (1/2)] []) "a".toList
      = emittedConf (reciprocal_rank_fusion [] [mkRes "a".toList (1/2)]) "a".toList :=
  (rrf_commutes [mkRes "a".toList (1/2)] [] "a".toList).2
